import Mathlib

/-!
Shallow embedding of the synchronization primitives of the repository:
the three one-shot channel variants (`chap-5-channels`, `chap-5-safer-channel`,
`chap-5-unarced-channel`) and the spin lock (`spin-lock`).

The `MaybeUninit<T>` storage is modelled as `Option T` (`none` = uninitialized);
`assume_init_read`/`assume_init_drop` on uninitialized storage is undefined
behavior in the source, surfaced here as reading the value `none`. A Rust
`panic!` is modelled as `Except.error` carrying the panic message, paired with
the state of the channel after the aborted operation.
-/

namespace Chap5Channels

/-- `Channel<T>` from `src/chap-5-channels/src/main.rs`:
`message: UnsafeCell<MaybeUninit<T>>`, `ready: AtomicBool`, `in_use: AtomicBool`. -/
structure Channel (T : Type) where
  message : Option T
  ready : Bool
  in_use : Bool
  deriving DecidableEq, Repr

/-- `Channel::new`: uninitialized message, both flags false. -/
def Channel.new (T : Type) : Channel T :=
  { message := none, ready := false, in_use := false }

/-- `Channel::send`: `in_use.swap(true, Relaxed)`; if the old value was `true`,
panic with "Can't send more than one message"; otherwise write the message and
`ready.store(true, Release)`. The returned state is the channel after the call
(on the panic path only the swap has run, writing `true` over `true`). -/
def Channel.send (c : Channel T) (value : T) : Except String Unit × Channel T :=
  let old := c.in_use
  let c1 : Channel T := { c with in_use := true }
  if old then
    (Except.error "Can't send more than one message", c1)
  else
    (Except.ok (), { c1 with message := some value, ready := true })

/-- `Channel::is_ready`: `ready.load(Relaxed)`. -/
def Channel.is_ready (c : Channel T) : Bool :=
  c.ready

/-- `Channel::recieve` (source spelling): `ready.swap(false, Acquire)`; if the
old value was `false`, panic with "No Message Available"; otherwise
`assume_init_read` the message (`none` would be an uninitialized read). -/
def Channel.recieve (c : Channel T) : Except String (Option T) × Channel T :=
  let old := c.ready
  let c1 : Channel T := { c with ready := false }
  if !old then
    (Except.error "No Message Available", c1)
  else
    (Except.ok c1.message, c1)

/-- `impl Drop for Channel`: if the ready flag is still set, run
`assume_init_drop` on the stored message. Returns how many times the payload
destructor runs during channel destruction. -/
def Channel.dropPayloadRuns (c : Channel T) : Nat :=
  if c.ready then 1 else 0

end Chap5Channels

namespace SaferChannel

/-- `Channel<T>` from `src/chap-5-safer-channel/src/main.rs`: only
`message: UnsafeCell<MaybeUninit<T>>` and `ready: AtomicBool` — this variant
carries no in-use flag; the `Sender`/`Receiver` endpoints hold `Arc` handles to
one such channel. -/
structure Channel (T : Type) where
  message : Option T
  ready : Bool
  deriving DecidableEq, Repr

/-- `channel()`: the freshly allocated shared channel state
(`MaybeUninit::uninit()`, `ready = false`) behind the two endpoints. -/
def channel (T : Type) : Channel T :=
  { message := none, ready := false }

/-- `Sender::send(self, message)`: takes the sender by value; unconditionally
writes the message and performs `ready.store(true, Release)`. Total function:
no failure path and no runtime check of the prior state. -/
def Sender.send (c : Channel T) (message : T) : Channel T :=
  { c with message := some message, ready := true }

/-- `Receiver::is_ready`: `ready.load(Relaxed)`. -/
def Receiver.is_ready (c : Channel T) : Bool :=
  c.ready

/-- `Receiver::receive(self)`: `ready.swap(false, Acquire)`; if the old value
was `false`, panic with "No Messages yet!"; otherwise `assume_init_read` the
message. -/
def Receiver.receive (c : Channel T) : Except String (Option T) × Channel T :=
  let old := c.ready
  let c1 : Channel T := { c with ready := false }
  if !old then
    (Except.error "No Messages yet!", c1)
  else
    (Except.ok c1.message, c1)

/-- `impl Drop for Channel`: run `assume_init_drop` on the message iff the
ready flag is still set; counts payload-destructor runs at destruction. -/
def Channel.dropPayloadRuns (c : Channel T) : Nat :=
  if c.ready then 1 else 0

end SaferChannel

namespace UnarcedChannel

/-- `Channel<T>` from `src/chap-5-unarced-channel/src/main.rs`:
`message: UnsafeCell<MaybeUninit<T>>`, `ready: AtomicBool`. The endpoints
borrow one caller-owned channel. -/
structure Channel (T : Type) where
  message : Option T
  ready : Bool
  deriving DecidableEq, Repr

/-- `Channel::new`: uninitialized message, ready flag false. -/
def Channel.new : Channel T :=
  { message := none, ready := false }

/-- `Channel::split`: executes `*self = Self::new();` and hands out the
borrowing `(Sender, Receiver)` pair. Returns the slot state the pair operates
on. -/
def Channel.split (_c : Channel T) : Channel T :=
  Channel.new

/-- `Sender::send(self, message)`: write the message, `ready.store(true,
Release)`, then unpark the receiving thread. -/
def Sender.send (c : Channel T) (message : T) : Channel T :=
  { c with message := some message, ready := true }

/-- `Receiver::is_ready`: `ready.load(Relaxed)`. -/
def Receiver.is_ready (c : Channel T) : Bool :=
  c.ready

/-- `Receiver::receive(self)`: `if !ready.swap(false, Acquire) { thread::park() }`
then unconditionally `assume_init_read` the message — note the `if`, not a
`while`: after `park` returns the flag is NOT re-checked. `stateAtWake` is the
channel state at the moment `park` returns; `std::thread::park` may return
spuriously, so `stateAtWake` can equal the unchanged pre-park state even though
no send has happened. -/
def Receiver.receive (c : Channel T) (stateAtWake : Channel T) : Option T × Channel T :=
  let old := c.ready
  let c1 : Channel T := { c with ready := false }
  if old then
    (c1.message, c1)
  else
    (stateAtWake.message, stateAtWake)

/-- `impl Drop for Channel`: run `assume_init_drop` on the message iff the
ready flag is still set; counts payload-destructor runs at destruction. -/
def Channel.dropPayloadRuns (c : Channel T) : Nat :=
  if c.ready then 1 else 0

end UnarcedChannel

namespace SpinLockSrc

/-- `AtomicBool::swap(new, _)` on the locked flag: returns the old value and
stores the new one. -/
def swap (flag new : Bool) : Bool × Bool :=
  (flag, new)

/-- `SpinLock::lock` from `src/spin-lock/src/main.rs`:
`while self.locked.swap(true, Acquire) { std::hint::spin_loop(); }`.
`env k` is the value of the locked flag observed by the swap at attempt `k`
(between attempts other threads may store into it). `lockLoopFrom env k fuel`
runs up to `fuel` further attempts starting at attempt `k` and returns the
attempt index at which the swap observed `false` (the acquisition), or `none`
if the loop is still spinning after `fuel` attempts. -/
def lockLoopFrom (env : Nat → Bool) (k : Nat) : Nat → Option Nat
  | 0 => none
  | fuel + 1 =>
    if (swap (env k) true).1 then lockLoopFrom env (k + 1) fuel
    else some k

/-- `SpinLock::lock` started at attempt 0. -/
def lockLoop (env : Nat → Bool) (fuel : Nat) : Option Nat :=
  lockLoopFrom env 0 fuel

end SpinLockSrc

namespace SpinLockSys

/-!
Interleaving model of the test scenario of the spin lock: `n` threads each
run `M` iterations of `{ let mut g = lock.lock(); *g += 1; }` against one
shared `SpinLock<counter>`. The per-thread program counter tracks the loop
(`idle rem`), the critical section between the successful `swap(true, Acquire)`
and the guard drop (`reading`, `writing`, `releasing` — while in these states
the thread owns the live `Guard`), and termination (`done`). The non-atomic
counter increment through the guard is modelled as a separate read and write
step, so a lost update is expressible if mutual exclusion were to fail.
-/

/-- Per-thread state. `rem` counts iterations not yet finished (including the
current one once the thread is past the loop test). -/
inductive TState where
  | idle (rem : Nat)
  | reading (rem : Nat)
  | writing (rem : Nat) (tmp : Nat)
  | releasing (rem : Nat)
  | done
  deriving DecidableEq, Repr

/-- Shared system state: the spin lock's flag, the shared counter, and each
thread's state. -/
@[ext]
structure Sys (n : Nat) where
  locked : Bool
  counter : Nat
  th : Fin n → TState

/-- Initial state: lock free, counter 0, every thread about to run `M`
iterations. -/
def init (n M : Nat) : Sys n :=
  { locked := false, counter := 0, th := fun _ => TState.idle M }

/-- Whether the thread currently holds the lock (owns a live `Guard`):
between its successful `swap(true, Acquire)` and the `Drop` of its guard. -/
def holds : TState → Bool
  | TState.reading _ => true
  | TState.writing _ _ => true
  | TState.releasing _ => true
  | _ => false

/-- Contribution of one thread to the count of live guards. -/
def hc (t : TState) : Nat :=
  if holds t then 1 else 0

/-- The number of threads currently holding a live guard. -/
def numHolders (s : Sys n) : Nat :=
  Finset.sum Finset.univ fun i => hc (s.th i)

/-- Iterations of the thread whose increments are not yet in the counter. -/
def owed : TState → Nat
  | TState.idle rem => rem
  | TState.reading rem => rem
  | TState.writing rem _ => rem
  | TState.releasing rem => rem - 1
  | TState.done => 0

/-- Total increments still owed across all threads. -/
def owedSum (s : Sys n) : Nat :=
  Finset.sum Finset.univ fun i => owed (s.th i)

/-- One interleaved step of the system: some thread advances. A swap that
observes `true` leaves the whole state unchanged (it stores `true` over
`true` and keeps spinning), so it needs no transition. -/
inductive Step : Sys n → Sys n → Prop where
  | exit (s : Sys n) (i : Fin n) :
      s.th i = TState.idle 0 →
      Step s { s with th := Function.update s.th i TState.done }
  | acquire (s : Sys n) (i : Fin n) (rem : Nat) :
      s.th i = TState.idle (rem + 1) → s.locked = false →
      Step s { s with locked := true,
                      th := Function.update s.th i (TState.reading (rem + 1)) }
  | read (s : Sys n) (i : Fin n) (rem : Nat) :
      s.th i = TState.reading rem →
      Step s { s with th := Function.update s.th i (TState.writing rem s.counter) }
  | write (s : Sys n) (i : Fin n) (rem tmp : Nat) :
      s.th i = TState.writing rem tmp →
      Step s { s with counter := tmp + 1,
                      th := Function.update s.th i (TState.releasing rem) }
  | release (s : Sys n) (i : Fin n) (rem : Nat) :
      s.th i = TState.releasing rem →
      Step s { s with locked := false,
                      th := Function.update s.th i (TState.idle (rem - 1)) }

/-- Reachability from the initial state of the `n`-thread, `M`-iteration
scenario. -/
def Reach (n M : Nat) (s : Sys n) : Prop :=
  Relation.ReflTransGen Step (init n M) s

/-- The inductive invariant: the lock flag counts the live guards, a thread
that has read the counter into its guard still sees the current value, the
counter plus all owed increments is the total work, and every thread inside
the lock-protected region has a positive iteration count. -/
structure Inv (n M : Nat) (s : Sys n) : Prop where
  lockHolders : numHolders s = if s.locked then 1 else 0
  tmpCurrent : ∀ i rem tmp, s.th i = TState.writing rem tmp → tmp = s.counter
  total : s.counter + owedSum s = n * M
  posReading : ∀ i rem, s.th i = TState.reading rem → 1 ≤ rem
  posWriting : ∀ i rem tmp, s.th i = TState.writing rem tmp → 1 ≤ rem
  posReleasing : ∀ i rem, s.th i = TState.releasing rem → 1 ≤ rem

/-- The all-done state of the one-thread, one-iteration demonstration run. -/
def demoFinal : Sys 1 :=
  { locked := false, counter := 1, th := fun _ => TState.done }

end SpinLockSys

namespace SpinLockSys

lemma comp_update (g : TState → Nat) (f : Fin n → TState) (i0 : Fin n) (v : TState) :
    (fun i => g (Function.update f i0 v i)) = Function.update (fun i => g (f i)) i0 (g v) := by
  funext i
  by_cases h : i = i0
  · subst h; simp
  · simp [Function.update_noteq h]

lemma update_sum (g : TState → Nat) (f : Fin n → TState) (i0 : Fin n) (v : TState) :
    (Finset.sum Finset.univ fun i => g (Function.update f i0 v i)) + g (f i0) =
    (Finset.sum Finset.univ fun i => g (f i)) + g v := by
  rw [comp_update g f i0 v, Finset.sum_update_of_mem (Finset.mem_univ i0),
    Finset.sum_eq_sum_diff_singleton_add (Finset.mem_univ i0) fun i => g (f i)]
  omega

lemma holds_all_false {s : Sys n} (h : numHolders s = 0) (j : Fin n) :
    holds (s.th j) = false := by
  unfold numHolders at h
  rw [Finset.sum_eq_zero_iff] at h
  have hj := h j (Finset.mem_univ j)
  cases hh : holds (s.th j)
  · rfl
  · simp only [hc, hh, if_true] at hj
    exact absurd hj one_ne_zero

lemma holds_unique {s : Sys n} (h1 : numHolders s = 1) (i : Fin n)
    (hi : holds (s.th i) = true) (j : Fin n) (hj : j ≠ i) :
    holds (s.th j) = false := by
  unfold numHolders at h1
  rw [Finset.sum_eq_sum_diff_singleton_add (Finset.mem_univ i)
    (fun k => hc (s.th k))] at h1
  have hci : hc (s.th i) = 1 := by simp only [hc, hi, if_true]
  rw [hci] at h1
  have hrest : (Finset.sum (Finset.univ \ {i}) fun k => hc (s.th k)) = 0 := by omega
  rw [Finset.sum_eq_zero_iff] at hrest
  have hjj := hrest j (by simp [Finset.mem_sdiff, hj])
  cases hh : holds (s.th j)
  · rfl
  · simp only [hc, hh, if_true] at hjj
    exact absurd hjj one_ne_zero

lemma holder_locked {s : Sys n} (hInv : numHolders s = if s.locked then 1 else 0)
    (i : Fin n) (hi : holds (s.th i) = true) :
    s.locked = true ∧ numHolders s = 1 := by
  have hle : 1 ≤ numHolders s := by
    unfold numHolders
    have hs := Finset.single_le_sum (f := fun k => hc (s.th k))
      (fun k _ => Nat.zero_le _) (Finset.mem_univ i)
    simp only [hc, hi, if_true] at hs
    exact hs
  cases hl : s.locked
  · rw [hl] at hInv; simp at hInv; omega
  · rw [hl] at hInv; simp at hInv; exact ⟨rfl, hInv⟩

end SpinLockSys

namespace SpinLockSys

lemma inv_init (n M : Nat) : Inv n M (init n M) := by
  refine ⟨?_, ?_, ?_, ?_, ?_, ?_⟩
  · simp [numHolders, init, hc, holds]
  · intro i rem tmp h
    simp [init] at h
  · simp [owedSum, init, owed, Finset.sum_const, Finset.card_univ, mul_comm]
  · intro i rem h
    simp [init] at h
  · intro i rem tmp h
    simp [init] at h
  · intro i rem h
    simp [init] at h

end SpinLockSys

namespace SpinLockSys

lemma hc_idle (rem : Nat) : hc (TState.idle rem) = 0 := rfl

lemma hc_done : hc TState.done = 0 := rfl

lemma hc_reading (rem : Nat) : hc (TState.reading rem) = 1 := rfl

lemma hc_writing (rem tmp : Nat) : hc (TState.writing rem tmp) = 1 := rfl

lemma hc_releasing (rem : Nat) : hc (TState.releasing rem) = 1 := rfl

lemma owed_idle (rem : Nat) : owed (TState.idle rem) = rem := rfl

lemma owed_done : owed TState.done = 0 := rfl

lemma owed_reading (rem : Nat) : owed (TState.reading rem) = rem := rfl

lemma owed_writing (rem tmp : Nat) : owed (TState.writing rem tmp) = rem := rfl

lemma owed_releasing (rem : Nat) : owed (TState.releasing rem) = rem - 1 := rfl

lemma inv_step {n M : Nat} {s s' : Sys n} (hs : Step s s') (hInv : Inv n M s) :
    Inv n M s' := by
  obtain ⟨hLock, hTmp, hTot, hPR, hPW, hPRel⟩ := hInv
  cases hs with
  | exit i hidle =>
      have hnum := update_sum hc s.th i TState.done
      have howed := update_sum owed s.th i TState.done
      rw [hidle] at hnum howed
      simp only [hc_idle, hc_done, owed_idle, owed_done, Nat.add_zero] at hnum howed
      refine ⟨?_, ?_, ?_, ?_, ?_, ?_⟩
      · unfold numHolders
        dsimp only
        rw [hnum]
        exact hLock
      · intro j rem' tmp' hj
        dsimp only at hj ⊢
        by_cases hji : j = i
        · subst hji; rw [Function.update_same] at hj; cases hj
        · rw [Function.update_noteq hji] at hj
          exact hTmp j rem' tmp' hj
      · unfold owedSum
        dsimp only
        rw [howed]
        exact hTot
      · intro j rem' hj
        dsimp only at hj
        by_cases hji : j = i
        · subst hji; rw [Function.update_same] at hj; cases hj
        · rw [Function.update_noteq hji] at hj; exact hPR j rem' hj
      · intro j rem' tmp' hj
        dsimp only at hj
        by_cases hji : j = i
        · subst hji; rw [Function.update_same] at hj; cases hj
        · rw [Function.update_noteq hji] at hj; exact hPW j rem' tmp' hj
      · intro j rem' hj
        dsimp only at hj
        by_cases hji : j = i
        · subst hji; rw [Function.update_same] at hj; cases hj
        · rw [Function.update_noteq hji] at hj; exact hPRel j rem' hj
  | acquire i rem hidle hlk =>
      have hzero : numHolders s = 0 := by rw [hLock, hlk]; rfl
      have hnum := update_sum hc s.th i (TState.reading (rem + 1))
      have howed := update_sum owed s.th i (TState.reading (rem + 1))
      rw [hidle] at hnum howed
      simp only [hc_idle, hc_reading, owed_idle, owed_reading, Nat.add_zero] at hnum howed
      have hzero' : (Finset.sum Finset.univ fun x => hc (s.th x)) = 0 := hzero
      refine ⟨?_, ?_, ?_, ?_, ?_, ?_⟩
      · unfold numHolders
        dsimp only
        have : (Finset.sum Finset.univ fun x =>
            hc (Function.update s.th i (TState.reading (rem + 1)) x)) = 1 := by omega
        rw [this]
        rfl
      · intro j rem' tmp' hj
        dsimp only at hj ⊢
        by_cases hji : j = i
        · subst hji; rw [Function.update_same] at hj; cases hj
        · rw [Function.update_noteq hji] at hj
          have hfa := holds_all_false hzero j
          rw [hj] at hfa
          simp [holds] at hfa
      · unfold owedSum
        dsimp only
        have : (Finset.sum Finset.univ fun x =>
            owed (Function.update s.th i (TState.reading (rem + 1)) x)) =
            Finset.sum Finset.univ fun x => owed (s.th x) := by omega
        rw [this]
        exact hTot
      · intro j rem' hj
        dsimp only at hj
        by_cases hji : j = i
        · subst hji; rw [Function.update_same] at hj
          injection hj with h
          omega
        · rw [Function.update_noteq hji] at hj; exact hPR j rem' hj
      · intro j rem' tmp' hj
        dsimp only at hj
        by_cases hji : j = i
        · subst hji; rw [Function.update_same] at hj; cases hj
        · rw [Function.update_noteq hji] at hj; exact hPW j rem' tmp' hj
      · intro j rem' hj
        dsimp only at hj
        by_cases hji : j = i
        · subst hji; rw [Function.update_same] at hj; cases hj
        · rw [Function.update_noteq hji] at hj; exact hPRel j rem' hj
  | read i rem hread =>
      obtain ⟨hlk, hone⟩ := holder_locked hLock i (by rw [hread]; rfl)
      have hnum := update_sum hc s.th i (TState.writing rem s.counter)
      have howed := update_sum owed s.th i (TState.writing rem s.counter)
      rw [hread] at hnum howed
      simp only [hc_reading, hc_writing, owed_reading, owed_writing] at hnum howed
      refine ⟨?_, ?_, ?_, ?_, ?_, ?_⟩
      · unfold numHolders
        dsimp only
        have : (Finset.sum Finset.univ fun x =>
            hc (Function.update s.th i (TState.writing rem s.counter) x)) =
            Finset.sum Finset.univ fun x => hc (s.th x) := by omega
        rw [this]
        exact hLock
      · intro j rem' tmp' hj
        dsimp only at hj ⊢
        by_cases hji : j = i
        · subst hji; rw [Function.update_same] at hj
          injection hj with h1 h2
          exact h2.symm
        · rw [Function.update_noteq hji] at hj
          have hfj := holds_unique hone i (by rw [hread]; rfl) j hji
          rw [hj] at hfj
          simp [holds] at hfj
      · unfold owedSum
        dsimp only
        have : (Finset.sum Finset.univ fun x =>
            owed (Function.update s.th i (TState.writing rem s.counter) x)) =
            Finset.sum Finset.univ fun x => owed (s.th x) := by omega
        rw [this]
        exact hTot
      · intro j rem' hj
        dsimp only at hj
        by_cases hji : j = i
        · subst hji; rw [Function.update_same] at hj; cases hj
        · rw [Function.update_noteq hji] at hj; exact hPR j rem' hj
      · intro j rem' tmp' hj
        dsimp only at hj
        by_cases hji : j = i
        · subst hji; rw [Function.update_same] at hj
          injection hj with h1 h2
          subst h1
          exact hPR _ rem hread
        · rw [Function.update_noteq hji] at hj; exact hPW j rem' tmp' hj
      · intro j rem' hj
        dsimp only at hj
        by_cases hji : j = i
        · subst hji; rw [Function.update_same] at hj; cases hj
        · rw [Function.update_noteq hji] at hj; exact hPRel j rem' hj
  | write i rem tmp hwrite =>
      obtain ⟨hlk, hone⟩ := holder_locked hLock i (by rw [hwrite]; rfl)
      have htmp : tmp = s.counter := hTmp i rem tmp hwrite
      have hrem : 1 ≤ rem := hPW i rem tmp hwrite
      have hnum := update_sum hc s.th i (TState.releasing rem)
      have howed := update_sum owed s.th i (TState.releasing rem)
      rw [hwrite] at hnum howed
      simp only [hc_writing, hc_releasing, owed_writing, owed_releasing] at hnum howed
      refine ⟨?_, ?_, ?_, ?_, ?_, ?_⟩
      · unfold numHolders
        dsimp only
        have : (Finset.sum Finset.univ fun x =>
            hc (Function.update s.th i (TState.releasing rem) x)) =
            Finset.sum Finset.univ fun x => hc (s.th x) := by omega
        rw [this]
        exact hLock
      · intro j rem' tmp' hj
        dsimp only at hj ⊢
        by_cases hji : j = i
        · subst hji; rw [Function.update_same] at hj; cases hj
        · rw [Function.update_noteq hji] at hj
          have hfj := holds_unique hone i (by rw [hwrite]; rfl) j hji
          rw [hj] at hfj
          simp [holds] at hfj
      · unfold owedSum at hTot ⊢
        dsimp only
        omega
      · intro j rem' hj
        dsimp only at hj
        by_cases hji : j = i
        · subst hji; rw [Function.update_same] at hj; cases hj
        · rw [Function.update_noteq hji] at hj; exact hPR j rem' hj
      · intro j rem' tmp' hj
        dsimp only at hj
        by_cases hji : j = i
        · subst hji; rw [Function.update_same] at hj; cases hj
        · rw [Function.update_noteq hji] at hj; exact hPW j rem' tmp' hj
      · intro j rem' hj
        dsimp only at hj
        by_cases hji : j = i
        · subst hji; rw [Function.update_same] at hj
          injection hj with h
          omega
        · rw [Function.update_noteq hji] at hj; exact hPRel j rem' hj
  | release i rem hrel =>
      obtain ⟨hlk, hone⟩ := holder_locked hLock i (by rw [hrel]; rfl)
      have hone' : (Finset.sum Finset.univ fun x => hc (s.th x)) = 1 := hone
      have hnum := update_sum hc s.th i (TState.idle (rem - 1))
      have howed := update_sum owed s.th i (TState.idle (rem - 1))
      rw [hrel] at hnum howed
      simp only [hc_releasing, hc_idle, owed_releasing, owed_idle, Nat.add_zero]
        at hnum howed
      refine ⟨?_, ?_, ?_, ?_, ?_, ?_⟩
      · unfold numHolders
        dsimp only
        have : (Finset.sum Finset.univ fun x =>
            hc (Function.update s.th i (TState.idle (rem - 1)) x)) = 0 := by omega
        rw [this]
        rfl
      · intro j rem' tmp' hj
        dsimp only at hj ⊢
        by_cases hji : j = i
        · subst hji; rw [Function.update_same] at hj; cases hj
        · rw [Function.update_noteq hji] at hj
          have hfj := holds_unique hone i (by rw [hrel]; rfl) j hji
          rw [hj] at hfj
          simp [holds] at hfj
      · unfold owedSum
        dsimp only
        have : (Finset.sum Finset.univ fun x =>
            owed (Function.update s.th i (TState.idle (rem - 1)) x)) =
            Finset.sum Finset.univ fun x => owed (s.th x) := by omega
        rw [this]
        exact hTot
      · intro j rem' hj
        dsimp only at hj
        by_cases hji : j = i
        · subst hji; rw [Function.update_same] at hj; cases hj
        · rw [Function.update_noteq hji] at hj; exact hPR j rem' hj
      · intro j rem' tmp' hj
        dsimp only at hj
        by_cases hji : j = i
        · subst hji; rw [Function.update_same] at hj; cases hj
        · rw [Function.update_noteq hji] at hj; exact hPW j rem' tmp' hj
      · intro j rem' hj
        dsimp only at hj
        by_cases hji : j = i
        · subst hji; rw [Function.update_same] at hj; cases hj
        · rw [Function.update_noteq hji] at hj; exact hPRel j rem' hj

end SpinLockSys

namespace SpinLockSys

lemma reach_inv {n M : Nat} {s : Sys n} (h : Reach n M s) : Inv n M s := by
  unfold Reach at h
  induction h with
  | refl => exact inv_init n M
  | tail _ hstep ih => exact inv_step hstep ih


end SpinLockSys

namespace SpinLockSrc

lemma lockLoopFrom_none_of_held (env : Nat → Bool) (henv : ∀ j, env j = true) :
    ∀ fuel k, lockLoopFrom env k fuel = none := by
  intro fuel
  induction fuel with
  | zero => intro k; rfl
  | succ fuel ih =>
      intro k
      unfold lockLoopFrom swap
      rw [henv k]
      simp only [if_true]
      exact ih (k + 1)

lemma lockLoopFrom_some_iff (env : Nat → Bool) :
    ∀ fuel k j, lockLoopFrom env k fuel = some j ↔
      (k ≤ j ∧ j < k + fuel ∧ env j = false ∧ ∀ m, k ≤ m → m < j → env m = true) := by
  intro fuel
  induction fuel with
  | zero =>
      intro k j
      constructor
      · intro h
        exact Option.noConfusion h
      · rintro ⟨h1, h2, -, -⟩
        exfalso
        omega
  | succ fuel ih =>
      intro k j
      unfold lockLoopFrom swap
      cases henv : env k
      · simp only [Bool.false_eq_true, if_false, Option.some_inj]
        constructor
        · intro h
          subst h
          refine ⟨Nat.le_refl _, by omega, henv, ?_⟩
          intro m hm1 hm2
          exfalso
          omega
        · rintro ⟨h1, h2, h3, h4⟩
          by_cases hjk : j = k
          · exact hjk.symm
          · exfalso
            have hk : env k = true := h4 k (Nat.le_refl k) (by omega)
            rw [henv] at hk
            exact Bool.noConfusion hk
      · simp only [if_true]
        rw [ih (k + 1) j]
        constructor
        · rintro ⟨h1, h2, h3, h4⟩
          refine ⟨by omega, by omega, h3, ?_⟩
          intro m hm1 hm2
          by_cases hmk : m = k
          · rw [hmk]; exact henv
          · exact h4 m (by omega) hm2
        · rintro ⟨h1, h2, h3, h4⟩
          have hjk : j ≠ k := by
            intro he
            rw [he, henv] at h3
            exact Bool.noConfusion h3
          refine ⟨by omega, by omega, h3, ?_⟩
          intro m hm1 hm2
          exact h4 m (by omega) hm2

end SpinLockSrc

namespace SpinLockSys

lemma demoFinal_reachable : Reach 1 1 demoFinal := by
  have t0 : Relation.ReflTransGen Step (init 1 1) (init 1 1) := Relation.ReflTransGen.refl
  have t1 := Relation.ReflTransGen.tail t0
    (Step.acquire (init 1 1) 0 0 (by decide) (by decide))
  have t2 := Relation.ReflTransGen.tail t1 (Step.read _ 0 1 (by decide))
  have t3 := Relation.ReflTransGen.tail t2 (Step.write _ 0 1 0 (by decide))
  have t4 := Relation.ReflTransGen.tail t3 (Step.release _ 0 1 (by decide))
  have t5 := Relation.ReflTransGen.tail t4 (Step.exit _ 0 (by decide))
  unfold Reach
  convert t5 using 1
  exact Sys.ext rfl rfl (funext fun i => by fin_cases i; decide)

end SpinLockSys

/-- C1: for every value `v` and each channel variant, a completed `send(v)`
followed by `receive()` on the matching endpoint returns exactly `v`, and it is
returned exactly once: after the successful receive the ready flag is cleared,
so a repeated receive reports failure (guarded and Arc variants) or cannot take
the ready branch again (borrowed-split variant). -/
theorem channel_send_receive_roundtrip (T : Type) (v : T) :
    (Chap5Channels.Channel.send (Chap5Channels.Channel.new T) v).1 = Except.ok () ∧
    (Chap5Channels.Channel.recieve
        (Chap5Channels.Channel.send (Chap5Channels.Channel.new T) v).2).1 =
      Except.ok (some v) ∧
    (Chap5Channels.Channel.recieve
        (Chap5Channels.Channel.recieve
          (Chap5Channels.Channel.send (Chap5Channels.Channel.new T) v).2).2).1 =
      Except.error "No Message Available" ∧
    (SaferChannel.Receiver.receive
        (SaferChannel.Sender.send (SaferChannel.channel T) v)).1 =
      Except.ok (some v) ∧
    (SaferChannel.Receiver.receive
        (SaferChannel.Receiver.receive
          (SaferChannel.Sender.send (SaferChannel.channel T) v)).2).1 =
      Except.error "No Messages yet!" ∧
    (UnarcedChannel.Receiver.receive
        (UnarcedChannel.Sender.send (UnarcedChannel.Channel.split (@UnarcedChannel.Channel.new T)) v)
        (UnarcedChannel.Sender.send (UnarcedChannel.Channel.split (@UnarcedChannel.Channel.new T)) v)).1 =
      some v ∧
    (UnarcedChannel.Receiver.receive
        (UnarcedChannel.Sender.send (UnarcedChannel.Channel.split (@UnarcedChannel.Channel.new T)) v)
        (UnarcedChannel.Sender.send (UnarcedChannel.Channel.split (@UnarcedChannel.Channel.new T)) v)).2.ready =
      false :=
  ⟨rfl, rfl, rfl, rfl, rfl, rfl, rfl⟩

/-- C2: a second `send` on a guarded channel whose in-use flag is already set
reports the failure "Can't send more than one message" via the swap on the
in-use flag, and leaves the stored message, the ready flag (and the in-use
flag) exactly as they were. -/
theorem guarded_second_send_fails_without_overwrite (T : Type) (m : Option T) (r : Bool) (v : T) :
    Chap5Channels.Channel.send { message := m, ready := r, in_use := true } v =
      (Except.error "Can't send more than one message",
        { message := m, ready := r, in_use := true }) :=
  rfl

/-- C3: `receive` on a guarded channel whose ready flag is false reports an
explicit failure, returns no value at all (so in particular no
partially-constructed or default value), and leaves the whole channel state
(message storage, ready flag, in-use flag) unchanged, in both guarded
variants. -/
theorem guarded_receive_before_send_fails_without_effect (T : Type) (m : Option T) (u : Bool) :
    Chap5Channels.Channel.recieve { message := m, ready := false, in_use := u } =
      (Except.error "No Message Available", { message := m, ready := false, in_use := u }) ∧
    SaferChannel.Receiver.receive { message := m, ready := false } =
      (Except.error "No Messages yet!", { message := m, ready := false }) :=
  ⟨rfl, rfl⟩

/-- C4, evaluated at the failing input: on the borrowed-split variant, a
`receive` on the fresh (never-sent-to) channel takes the swap-returned-false
branch, parks, and after `park` returns — which `std::thread::park` permits
spuriously, with the channel still in its unchanged fresh state — reads the
message storage unconditionally, yielding the uninitialized value `none`
even though the test-and-clear of the ready flag never returned true for this
receiver. -/
theorem unarced_receive_after_spurious_wakeup_reads_uninit :
    (@UnarcedChannel.Channel.new Nat).ready = false ∧
    UnarcedChannel.Receiver.receive (@UnarcedChannel.Channel.new Nat)
        (@UnarcedChannel.Channel.new Nat) =
      (none, @UnarcedChannel.Channel.new Nat) :=
  ⟨rfl, rfl⟩

/-- C5: channel destruction runs the payload destructor exactly once when the
ready flag is still set (a sent value never received) and not at all otherwise
(fresh channel, or sent and received), in all three variants; in general the
count is exactly `if ready then 1 else 0`, so destructions equal the number of
successful sends whose value was never received — no leak, no double-free. -/
theorem channel_drop_destroys_unreceived_message_exactly_once (T : Type) (v : T) :
    Chap5Channels.Channel.dropPayloadRuns (Chap5Channels.Channel.new T) = 0 ∧
    Chap5Channels.Channel.dropPayloadRuns
        (Chap5Channels.Channel.send (Chap5Channels.Channel.new T) v).2 = 1 ∧
    Chap5Channels.Channel.dropPayloadRuns
        (Chap5Channels.Channel.recieve
          (Chap5Channels.Channel.send (Chap5Channels.Channel.new T) v).2).2 = 0 ∧
    SaferChannel.Channel.dropPayloadRuns (SaferChannel.channel T) = 0 ∧
    SaferChannel.Channel.dropPayloadRuns
        (SaferChannel.Sender.send (SaferChannel.channel T) v) = 1 ∧
    SaferChannel.Channel.dropPayloadRuns
        (SaferChannel.Receiver.receive
          (SaferChannel.Sender.send (SaferChannel.channel T) v)).2 = 0 ∧
    UnarcedChannel.Channel.dropPayloadRuns (@UnarcedChannel.Channel.new T) = 0 ∧
    UnarcedChannel.Channel.dropPayloadRuns
        (UnarcedChannel.Sender.send (@UnarcedChannel.Channel.new T) v) = 1 ∧
    (∀ c : SaferChannel.Channel T,
      SaferChannel.Channel.dropPayloadRuns c = if c.ready then 1 else 0) ∧
    (∀ c : Chap5Channels.Channel T,
      Chap5Channels.Channel.dropPayloadRuns c = if c.ready then 1 else 0) ∧
    (∀ c : UnarcedChannel.Channel T,
      UnarcedChannel.Channel.dropPayloadRuns c = if c.ready then 1 else 0) :=
  ⟨rfl, rfl, rfl, rfl, rfl, rfl, rfl, rfl, fun _ => rfl, fun _ => rfl, fun _ => rfl⟩

/-- C6: for every prior state of a caller-owned slot — in particular one with
a stale ready flag or a leftover message — `split` resets the slot to the
empty state (`ready = false`, message storage uninitialized) before the new
endpoint pair operates on it, so `is_ready` on the new pair reads false until
the new send. -/
theorem split_resets_slot (T : Type) (c : UnarcedChannel.Channel T) :
    UnarcedChannel.Channel.split c = { message := none, ready := false } ∧
    UnarcedChannel.Receiver.is_ready (UnarcedChannel.Channel.split c) = false :=
  ⟨rfl, rfl⟩

/-- C7: in the interleaving model of the spin lock scenario, every reachable
state has at most one live guard (mutual exclusion), and when all `n` threads
have finished their `M` lock-increment-unlock iterations the shared counter is
exactly `n * M` — no lost updates under any interleaving. -/
theorem spinlock_mutual_exclusion_and_counter (n M : Nat) (s : SpinLockSys.Sys n)
    (h : SpinLockSys.Reach n M s) :
    SpinLockSys.numHolders s ≤ 1 ∧
    ((∀ i, s.th i = SpinLockSys.TState.done) → s.counter = n * M) := by
  have hInv := SpinLockSys.reach_inv h
  constructor
  · rw [hInv.lockHolders]
    cases s.locked <;> simp
  · intro hdone
    have hz : SpinLockSys.owedSum s = 0 := by
      unfold SpinLockSys.owedSum
      apply Finset.sum_eq_zero
      intro i _
      rw [hdone i, SpinLockSys.owed_done]
    have htot := hInv.total
    omega

/-- Witness for C7: the one-thread, one-iteration schedule executed to
completion reaches the all-done state with counter exactly `1 * 1`. -/
theorem spinlock_mutual_exclusion_and_counter_witness :
    SpinLockSys.numHolders SpinLockSys.demoFinal ≤ 1 ∧
    ((∀ i, SpinLockSys.demoFinal.th i = SpinLockSys.TState.done) →
      SpinLockSys.demoFinal.counter = 1 * 1) :=
  spinlock_mutual_exclusion_and_counter 1 1 SpinLockSys.demoFinal
    SpinLockSys.demoFinal_reachable

/-- C8: `SpinLock::lock` has no failure or timeout result at all: the spin
loop returns (acquiring at attempt `k`, the swap having stored true into the
flag) exactly when the flag it observes at attempt `k` is false and it
observed true at every earlier attempt; and if the flag reads true at every
attempt — the lock held and never released, as on re-entrant acquisition by
the holding thread — the loop returns for no amount of fuel: it spins
forever. -/
theorem spinlock_lock_returns_iff_observes_false (env : Nat → Bool) (fuel k : Nat) :
    (SpinLockSrc.lockLoop env fuel = some k ↔
      (k < fuel ∧ env k = false ∧ ∀ j, j < k → env j = true)) ∧
    ((∀ j, env j = true) → SpinLockSrc.lockLoop env fuel = none) ∧
    (SpinLockSrc.swap (env k) true).2 = true := by
  refine ⟨?_, ?_, rfl⟩
  · unfold SpinLockSrc.lockLoop
    rw [SpinLockSrc.lockLoopFrom_some_iff]
    constructor
    · rintro ⟨-, h2, h3, h4⟩
      exact ⟨by omega, h3, fun j hj => h4 j (Nat.zero_le j) hj⟩
    · rintro ⟨h1, h2, h3⟩
      exact ⟨Nat.zero_le k, by omega, h2, fun m _ hm => h3 m hm⟩
  · intro henv
    exact SpinLockSrc.lockLoopFrom_none_of_held env henv fuel 0

/-- C9: `is_ready` is a pure observation of the ready flag (the embedding
types it as a function with no state output, so it consumes and modifies
nothing however often it is called); it reads false on the fresh channel
(before the send's publish), true strictly after a completed send, and false
again once the message has been received — in both the guarded and the
Arc-based variants, with no false positive: it returns exactly the flag the
send's publish step sets. -/
theorem is_ready_reports_publish_exactly (T : Type) (v : T) :
    (∀ c : SaferChannel.Channel T, SaferChannel.Receiver.is_ready c = c.ready) ∧
    (∀ c : Chap5Channels.Channel T, Chap5Channels.Channel.is_ready c = c.ready) ∧
    SaferChannel.Receiver.is_ready (SaferChannel.channel T) = false ∧
    Chap5Channels.Channel.is_ready (Chap5Channels.Channel.new T) = false ∧
    SaferChannel.Receiver.is_ready
        (SaferChannel.Sender.send (SaferChannel.channel T) v) = true ∧
    Chap5Channels.Channel.is_ready
        (Chap5Channels.Channel.send (Chap5Channels.Channel.new T) v).2 = true ∧
    SaferChannel.Receiver.is_ready
        (SaferChannel.Receiver.receive
          (SaferChannel.Sender.send (SaferChannel.channel T) v)).2 = false ∧
    Chap5Channels.Channel.is_ready
        (Chap5Channels.Channel.recieve
          (Chap5Channels.Channel.send (Chap5Channels.Channel.new T) v).2).2 = false :=
  ⟨fun _ => rfl, fun _ => rfl, rfl, rfl, rfl, rfl, rfl, rfl⟩

/-- C10: in the Arc-based variant, `Sender::send` is a total operation with no
failure result: for every prior channel state it unconditionally writes the
message and sets the ready flag, and its result does not depend on the prior
state at all — there is no runtime in-use check (the `Channel` structure of
this variant carries no in-use flag), a second send being prevented only by
the endpoint being consumed by value. -/
theorem safer_send_total_and_unconditional (T : Type) (v : T) :
    (∀ c : SaferChannel.Channel T,
      SaferChannel.Sender.send c v = { message := some v, ready := true }) ∧
    (∀ c c' : SaferChannel.Channel T,
      SaferChannel.Sender.send c v = SaferChannel.Sender.send c' v) :=
  ⟨fun _ => rfl, fun _ _ => rfl⟩
